import Mathlib

/-!
Verification development for the TF-IDF semantic search engine implemented in
`Semantic_Search.py` (class `SemanticSearcher`).

Embedding conventions:
* Python strings are Lean `String`s / `List Char`.
* numpy float arrays are lists of exact rationals (`ℚ`); IEEE-754 rounding is
  outside the model.
* The printed error messages the code uses to signal failure conditions
  (`print("❌ ...")` followed by `return []`) are modelled by an explicit
  `Console` channel in the corresponding operation's return value; decorative
  presentation output (headers, score bars) is not modelled.
* Uncaught Python exceptions are modelled by explicit failure constructors.
-/

namespace SemSearch

/-- Python `\s` on the ASCII range: space, tab, newline, carriage return,
vertical tab (11) and form feed (12). -/
def pyIsSpace (c : Char) : Bool :=
  c == ' ' || c == '\t' || c == '\n' || c == '\r' || c.toNat == 11 || c.toNat == 12

/-- Character class `[a-z]`. -/
def isLowerAlpha (c : Char) : Bool :=
  'a' ≤ c && c ≤ 'z'

/-- Embeds `re.sub(r'[^a-z\s]', '', text)`: delete every character that is not
a lowercase Latin letter and not whitespace. -/
def stripNonAlpha (l : List Char) : List Char :=
  l.filter (fun c => isLowerAlpha c || pyIsSpace c)

/-- Embeds `re.sub(r'\s+', ' ', text)`: every maximal run of whitespace
characters is replaced by a single space. -/
def collapseWs : List Char → List Char
  | [] => []
  | [c] => if pyIsSpace c then [' '] else [c]
  | c1 :: c2 :: cs =>
    if pyIsSpace c1 then
      if pyIsSpace c2 then collapseWs (c2 :: cs)
      else ' ' :: collapseWs (c2 :: cs)
    else c1 :: collapseWs (c2 :: cs)

/-- Embeds Python `str.strip()`: remove leading and trailing whitespace. -/
def pyStrip (l : List Char) : List Char :=
  ((l.dropWhile pyIsSpace).reverse.dropWhile pyIsSpace).reverse

/-- Embeds `SemanticSearcher.preprocess_text`.  The `Option` input models the
`isinstance(text, str)` test: `none` is any non-string value, which is mapped
to the empty string.  A string input is lowercased, stripped of characters
outside `[a-z\s]`, whitespace-collapsed and trimmed, in that order. -/
def preprocess_text : Option String → String
  | none => ""
  | some text =>
    String.mk (pyStrip (collapseWs (stripNonAlpha (text.toList.map Char.toLower))))

/-- Modelled from the spec (§4.1), for comparison with `preprocess_text`:
the maximal non-whitespace words of the text, in order. -/
def specWords : List Char → List (List Char)
  | [] => []
  | c :: cs =>
    if pyIsSpace c then specWords cs
    else (c :: cs.takeWhile (fun d => !pyIsSpace d)) ::
      specWords (cs.dropWhile (fun d => !pyIsSpace d))
termination_by l => l.length
decreasing_by
  · simp only [List.length_cons]; omega
  · have := (List.dropWhile_sublist (l := cs) (fun d => !pyIsSpace d)).length_le
    simp only [List.length_cons]; omega

/-- Modelled from the spec (§4.1): join words with single spaces (equivalently,
collapse interior whitespace runs and trim the ends). -/
def joinWords : List (List Char) → List Char
  | [] => []
  | [w] => w
  | w :: w2 :: ws => w ++ ' ' :: joinWords (w2 :: ws)

/-- Modelled from the spec (§4.1 Text Normalizer): lowercase; strip every
character that is not a lowercase Latin letter or whitespace; collapse
whitespace runs to single spaces and trim, here phrased as joining the
whitespace-separated words with single spaces. -/
def normalizeSpec : Option String → String
  | none => ""
  | some text =>
    String.mk (joinWords (specWords (stripNonAlpha (text.toList.map Char.toLower))))

/-- Helper: the right-trim part of `pyStrip`. -/
def stripRight (l : List Char) : List Char :=
  (l.reverse.dropWhile pyIsSpace).reverse

/-- Regex `\w` (word character) as it applies to the engine's inputs, which are
lowercase ASCII after `preprocess_text`: letters, digits or underscore. -/
def isWordChar (c : Char) : Bool :=
  c.isAlphanum || c == '_'

/-- Maximal runs of word characters of a character list, in order.  A word
character opening a run (next character absent or not a word character) starts
a new group; otherwise it is prepended to the group in progress. -/
def wordRuns : List Char → List (List Char)
  | [] => []
  | c :: cs =>
    let rest := wordRuns cs
    if isWordChar c then
      match cs with
      | [] => [[c]]
      | c2 :: _ => if isWordChar c2 then (c :: rest.headD []) :: rest.tail
                   else [c] :: rest
    else rest

/-- Embeds the default `TfidfVectorizer` tokenizer, `token_pattern`
`(?u)\b\w\w+\b`: the maximal word-character runs of length at least 2. -/
def sklearnTokenize (s : String) : List String :=
  ((wordRuns s.toList).filter (fun w => 2 ≤ w.length)).map (fun w => String.mk w)

/-- Embeds scikit-learn's built-in English stop-word list
(`sklearn.feature_extraction.text.ENGLISH_STOP_WORDS`), selected by the
`stop_words='english'` argument in `SemanticSearcher.__init__`. -/
def sklearnStopWords : List String :=
  ["a", "about", "above", "across", "after", "afterwards", "again", "against",
   "all", "almost", "alone", "along", "already", "also", "although", "always",
   "am", "among", "amongst", "amoungst", "amount", "an", "and", "another",
   "any", "anyhow", "anyone", "anything", "anyway", "anywhere", "are",
   "around", "as", "at", "back", "be", "became", "because", "become",
   "becomes", "becoming", "been", "before", "beforehand", "behind", "being",
   "below", "beside", "besides", "between", "beyond", "bill", "both",
   "bottom", "but", "by", "call", "can", "cannot", "cant", "co", "con",
   "could", "couldnt", "cry", "de", "describe", "detail", "do", "done",
   "down", "due", "during", "each", "eg", "eight", "either", "eleven",
   "else", "elsewhere", "empty", "enough", "etc", "even", "ever", "every",
   "everyone", "everything", "everywhere", "except", "few", "fifteen",
   "fifty", "fill", "find", "fire", "first", "five", "for", "former",
   "formerly", "forty", "found", "four", "from", "front", "full", "further",
   "get", "give", "go", "had", "has", "hasnt", "have", "he", "hence", "her",
   "here", "hereafter", "hereby", "herein", "hereupon", "hers", "herself",
   "him", "himself", "his", "how", "however", "hundred", "i", "ie", "if",
   "in", "inc", "indeed", "interest", "into", "is", "it", "its", "itself",
   "keep", "last", "latter", "latterly", "least", "less", "ltd", "made",
   "many", "may", "me", "meanwhile", "might", "mill", "mine", "more",
   "moreover", "most", "mostly", "move", "much", "must", "my", "myself",
   "name", "namely", "neither", "never", "nevertheless", "next", "nine",
   "no", "nobody", "none", "noone", "nor", "not", "nothing", "now",
   "nowhere", "of", "off", "often", "on", "once", "one", "only", "onto",
   "or", "other", "others", "otherwise", "our", "ours", "ourselves", "out",
   "over", "own", "part", "per", "perhaps", "please", "put", "rather", "re",
   "same", "see", "seem", "seemed", "seeming", "seems", "serious", "several",
   "she", "should", "show", "side", "since", "sincere", "six", "sixty", "so",
   "some", "somehow", "someone", "something", "sometime", "sometimes",
   "somewhere", "still", "such", "system", "take", "ten", "than", "that",
   "the", "their", "them", "themselves", "then", "thence", "there",
   "thereafter", "thereby", "therefore", "therein", "thereupon", "these",
   "they", "thick", "thin", "third", "this", "those", "though", "three",
   "through", "throughout", "thru", "thus", "to", "together", "too", "top",
   "toward", "towards", "twelve", "twenty", "two", "un", "under", "until",
   "up", "upon", "us", "very", "via", "was", "we", "well", "were", "what",
   "whatever", "when", "whence", "whenever", "where", "whereafter",
   "whereas", "whereby", "wherein", "whereupon", "wherever", "whether",
   "which", "while", "whither", "who", "whoever", "whole", "whom", "whose",
   "why", "will", "with", "within", "without", "would", "yet", "you",
   "your", "yours", "yourself", "yourselves"]

/-- A bigram term: the two adjacent tokens joined by a single space. -/
def bigramJoin (a b : String) : String :=
  a ++ " " ++ b

/-- Embeds `ngram_range=(1, 2)`: all unigrams, then all adjacent bigrams. -/
def ngrams12 (toks : List String) : List String :=
  toks ++ toks.zipWith bigramJoin toks.tail

/-- Embeds the vectorizer's analyzer for `lowercase=True`,
`stop_words='english'`, `ngram_range=(1, 2)`: lowercase, tokenize, drop stop
words, build unigrams and bigrams. -/
def analyze (s : String) : List String :=
  ngrams12 ((sklearnTokenize (String.mk (s.toList.map Char.toLower))).filter
    (fun t => !(sklearnStopWords.contains t)))

/-- Document frequency of a term in the analyzed corpus. -/
def docFreq (docs : List (List String)) (t : String) : ℕ :=
  (docs.filter (fun d => d.contains t)).length

/-- Total term frequency of a term across the analyzed corpus. -/
def termFreq (docs : List (List String)) (t : String) : ℕ :=
  (docs.map (fun d => d.count t)).sum

/-- Embeds the vocabulary construction performed by
`vectorizer.fit_transform` with `max_features=5000`, `min_df=1`,
`max_df=0.9`: collect every analyzed term, order alphabetically, drop terms
whose document frequency is below `min_df` or above `max_df * n_docs`, and if
more than `max_features` terms remain keep the `max_features` most frequent
(by total count, ties keeping the alphabetically first — scikit-learn's tie
order among equal counts is an implementation detail, flagged as unspecified
by the spec's design notes, and the claims below never reach this cut). -/
def buildVocabulary (corpus : List String) : List String :=
  let docs := corpus.map analyze
  let n := corpus.length
  let sorted := (docs.flatten.dedup).insertionSort (fun a b => a ≤ b)
  let kept := sorted.filter (fun t =>
    decide (1 ≤ docFreq docs t) &&
      decide ((docFreq docs t : ℚ) ≤ 9 / 10 * (n : ℚ)))
  if kept.length ≤ 5000 then kept
  else ((kept.insertionSort (fun a b =>
    termFreq docs b ≤ termFreq docs a)).take 5000).insertionSort
      (fun a b => a ≤ b)

/-- Embeds the count layer of `vectorizer.transform` on one text: the number
of occurrences of each vocabulary term among the analyzed terms of the text
(the tf-idf weighting and l2 normalization that follow both send the zero
count vector to the zero vector). -/
def countVector (vocab : List String) (text : String) : List ℕ :=
  vocab.map (fun t => (analyze text).count t)

/-- Dense vectors of the shared term space.  Weights are exact rationals in
place of the code's IEEE doubles. -/
abbrev Vec := List ℚ

/-- Dot product, missing coordinates counting as zero. -/
def dot (u v : Vec) : ℚ :=
  (u.zipWith (fun a b => a * b) v).sum

/-- Embeds `sklearn.metrics.pairwise.cosine_similarity` applied to one query
row and one matrix row.  `cosine_similarity` l2-normalizes both arguments and
takes their dot product (all-zero rows staying zero).  Every vector this
program hands to it — a row of `fit_transform`'s output or a `transform`ed
query — is already l2-normalized by the vectorizer (`norm='l2'`), i.e. unit or
zero, so the recomputed normalization is the identity and the cosine is the
plain dot product, which is how it is modelled. -/
def cosine_similarity (u v : Vec) : ℚ :=
  dot u v

/-- Sort key of `np.argsort` on a similarity array: ascending value, and
among equal values ascending position.  numpy's default sort is applied to
arrays below its insertion-sort threshold in every scenario modelled here, and
insertion sort keeps equal elements in position order; the spec's design notes
flag the large-array tie order as unspecified. -/
def keyRel (sims : List ℚ) (i j : ℕ) : Prop :=
  sims.getD i 0 < sims.getD j 0 ∨ (sims.getD i 0 = sims.getD j 0 ∧ i ≤ j)

instance (sims : List ℚ) : DecidableRel (keyRel sims) := fun i j => by
  unfold keyRel
  infer_instance

/-- Embeds `np.argsort(similarities)`: the positions of the array sorted by
ascending similarity (stable). -/
def argsort (sims : List ℚ) : List ℕ :=
  (List.range sims.length).insertionSort (keyRel sims)

/-- Embeds `np.argsort(similarities)[::-1][:top_k]`, the ranking step shared
by the three ranked query shapes. -/
def rankDescIdx (sims : List ℚ) (top_k : ℕ) : List ℕ :=
  (argsort sims).reverse.take top_k

/-- One record of the loaded catalog (`self.products`), with the `get`
defaults already resolved: `title`, `price`, `image`. -/
structure Product where
  title : String
  price : String
  image : String
deriving DecidableEq, Repr

/-- One entry of a result list, exactly the dict built by the search
methods. -/
structure ScoredResult where
  index : ℕ
  titre : String
  prix : String
  image : String
  similarite : ℚ
  score_pourcentage : ℚ
deriving DecidableEq, Repr

/-- The error-signalling console messages of the search methods. -/
inductive Console where
  /-- Printed text `Les embeddings ne sont pas generes` (search guard). -/
  | embeddingsNotGenerated
  /-- Printed text `Fichier produits_marjane_clean.csv non trouve`. -/
  | csvNotFound
  /-- Printed text `Aucun produit trouve dans la categorie: ...`. -/
  | categoryNotFound (category : String)
  /-- Printed text `Indice de produit invalide: ...` (similar_products guard). -/
  | invalidProductIndex (idx : ℤ)
deriving DecidableEq, Repr

/-- State of a `SemanticSearcher` object.  `embeddings` is `None` until
`generate_embeddings` has run; `transform` is the frozen fitted vectorizer
(`self.vectorizer.transform` composed with `.toarray()[0]`), whose count layer
is modelled executably by `countVector`/`buildVocabulary` above and whose
tf-idf weighting and l2 normalization preserve the zero vector and produce
unit-or-zero, componentwise non-negative rows. -/
structure Searcher where
  products : List Product
  embeddings : Option (List Vec)
  transform : String → Vec

/-- The result dict literal built by all three ranked query shapes. -/
def mkResult (s : Searcher) (idx : ℕ) (sim : ℚ) : ScoredResult :=
  let p := s.products.getD idx ⟨"", "", ""⟩
  { index := idx, titre := p.title, prix := p.price, image := p.image,
    similarite := sim, score_pourcentage := sim * 100 }

/-- Embeds `SemanticSearcher.search`.  Returns the console error channel and
the result list.  With no embeddings the guard prints and returns the empty
list; otherwise the query is preprocessed, projected, scored against every
row, the positions are ranked by descending score (argsort reversed) and cut
to `top_k`, and entries with non-positive score are dropped. -/
def search (s : Searcher) (query : String) (top_k : ℕ) :
    List Console × List ScoredResult :=
  match s.embeddings with
  | none => ([Console.embeddingsNotGenerated], [])
  | some emb =>
    let qv := s.transform (preprocess_text (some query))
    let sims := emb.map (fun row => cosine_similarity qv row)
    let top := rankDescIdx sims top_k
    ([], top.filterMap (fun idx =>
      if 0 < sims.getD idx 0 then some (mkResult s idx (sims.getD idx 0))
      else none))

/-- Python `dict` insertion: an existing key's value is replaced in place, a
new key is appended. -/
def dictInsert {β : Type} (d : List (String × β)) (k : String) (v : β) :
    List (String × β) :=
  if d.any (fun p => p.1 == k) then
    d.map (fun p => if p.1 == k then (k, v) else p)
  else d ++ [(k, v)]

/-- Embeds `SemanticSearcher.batch_search`: one `search` per query, collected
into an insertion-ordered dict keyed by the query string. -/
def batch_search (s : Searcher) (queries : List String) (top_k : ℕ) :
    List (String × List ScoredResult) :=
  queries.foldl (fun acc q => dictInsert acc q (search s q top_k).2) []

/-- First-occurrence deduplication: the key order of a Python dict filled by
iterating a sequence. -/
def firstDedup (l : List String) : List String :=
  l.foldl (fun acc q => if acc.contains q then acc else acc ++ [q]) []

/-- Embeds `df[df['categorie'] == category].index.tolist()`: the row indices
of the csv whose category column equals the label. -/
def categoryIndices (cats : List String) (category : String) : List ℕ :=
  (List.range cats.length).filter (fun i => cats.getD i "" == category)

/-- Embeds `SemanticSearcher.search_by_category`.  `csvData` is the
`categorie` column of `produits_marjane_clean.csv` in row order (`none`: the
file is absent).  The outer `Option` of the result is `none` when the Python
code would raise (embeddings still `None` at the subscript on line 199): the
`FileNotFoundError` and empty-category branches print and return `[]`;
otherwise the rows whose category matches are scored, ranked, cut to `top_k`,
and the winning subset-local ranks are mapped back to catalog indices. -/
def search_by_category (csvData : Option (List String)) (s : Searcher)
    (query category : String) (top_k : ℕ) :
    Option (List Console × List ScoredResult) :=
  match csvData with
  | none => some ([Console.csvNotFound], [])
  | some cats =>
    let category_indices := categoryIndices cats category
    if category_indices.isEmpty then
      some ([Console.categoryNotFound category], [])
    else
      match s.embeddings with
      | none => none
      | some emb =>
        let qv := s.transform (preprocess_text (some query))
        let category_embeddings := category_indices.map (fun i => emb.getD i [])
        let sims := category_embeddings.map (fun row => cosine_similarity qv row)
        let topLocal := rankDescIdx sims top_k
        some ([], topLocal.map (fun li =>
          mkResult s (category_indices.getD li 0) (sims.getD li 0)))

/-- Outcome of `similar_products`. -/
inductive SimilarOutcome where
  /-- The `product_index >= len(self.products)` guard fired: the method prints
  the invalid-index message and returns `[]`. -/
  | invalidIndex (idx : ℤ)
  /-- An uncaught Python exception: `TypeError` when `self.embeddings` is
  still `None`, or the failure caused by an empty slice `embeddings[i:i+1]`
  (scikit-learn rejects a 0-sample input to `cosine_similarity`, and were a
  0-row matrix returned, the `[0]` subscript would raise `IndexError`). -/
  | pyError
  /-- Normal return. -/
  | ok (results : List ScoredResult)
deriving DecidableEq, Repr

/-- Python slice `l[i : i+1]` for an arbitrary (possibly negative) integer
index: `some` row when the slice is non-empty, `none` when it is empty.
For `0 ≤ i` the slice holds row `i` when `i < len`; for `i = -1` the stop
bound `i+1 = 0` clamps the slice empty; for `i ≤ -2` the slice holds row
`len+i` when that is non-negative. -/
def pySliceRow (emb : List Vec) (i : ℤ) : Option Vec :=
  if 0 ≤ i then
    if i < (emb.length : ℤ) then some (emb.getD i.toNat []) else none
  else if i = -1 then none
  else if 0 ≤ (emb.length : ℤ) + i then
    some (emb.getD ((emb.length : ℤ) + i).toNat [])
  else none

/-- Embeds `SemanticSearcher.similar_products`.  The guard only rejects
`product_index >= len(self.products)`; a negative index reaches the numpy
slice and either raises (`-1`, or below `-len`) or wraps around Python-style.
The item's own row (at the wrapped position) is overwritten with `-1` before
ranking.  No positivity filter is applied to the ranked entries. -/
def similar_products (s : Searcher) (product_index : ℤ) (top_k : ℕ) :
    SimilarOutcome :=
  if (s.products.length : ℤ) ≤ product_index then
    SimilarOutcome.invalidIndex product_index
  else
    match s.embeddings with
    | none => SimilarOutcome.pyError
    | some emb =>
      match pySliceRow emb product_index with
      | none => SimilarOutcome.pyError
      | some row =>
        let sims0 := emb.map (fun r => cosine_similarity row r)
        let wrapped : ℕ :=
          if product_index < 0 then ((emb.length : ℤ) + product_index).toNat
          else product_index.toNat
        let sims := sims0.set wrapped (-1)
        let top := rankDescIdx sims top_k
        SimilarOutcome.ok (top.map (fun idx => mkResult s idx (sims.getD idx 0)))

/-- Filesystem / network effects. -/
inductive IOEffect where
  | fsRead (path : String)
  | fsWrite (path : String)
deriving DecidableEq, Repr

/-- I/O trace of `SemanticSearcher.search` (lines 96-124): the body touches
no file and no socket. -/
def searchIOTrace (_s : Searcher) (_query : String) (_top_k : ℕ) :
    List IOEffect := []

/-- I/O trace of `SemanticSearcher.batch_search` (lines 167-180): a loop of
`search` calls and prints, no file and no socket. -/
def batch_searchIOTrace (_s : Searcher) (_queries : List String) (_top_k : ℕ) :
    List IOEffect := []

/-- I/O trace of `SemanticSearcher.similar_products` (lines 219-243): no file
and no socket. -/
def similar_productsIOTrace (_s : Searcher) (_idx : ℤ) (_top_k : ℕ) :
    List IOEffect := []

/-- I/O trace of `SemanticSearcher.search_by_category` (lines 182-217): the
body starts with `pd.read_csv('produits_marjane_clean.csv')` (line 185) on
every call. -/
def search_by_categoryIOTrace (_s : Searcher) (_query _category : String)
    (_top_k : ℕ) : List IOEffect :=
  [IOEffect.fsRead "produits_marjane_clean.csv"]

/-- I/O trace of `SemanticSearcher.load_products` (lines 35-48): one read of
the catalog file. -/
def load_productsIOTrace (json_file : String) : List IOEffect :=
  [IOEffect.fsRead json_file]

/-- I/O trace of `SemanticSearcher.export_results` (lines 245-249): one write
of the export file. -/
def export_resultsIOTrace (filename : String) : List IOEffect :=
  [IOEffect.fsWrite filename]

/-- Example catalog item 0. -/
def pEx0 : Product := ⟨"Lait entier 1L", "10 DH", "img0"⟩

/-- Example catalog item 1. -/
def pEx1 : Product := ⟨"Chocolat noir", "20 DH", "img1"⟩

/-- A built two-item searcher whose (unit-vector) rows are orthogonal; the
fitted transform sends the empty preprocessed query to the zero vector and
any other query to the first basis vector. -/
def sReady2 : Searcher :=
  { products := [pEx0, pEx1], embeddings := some [[1, 0], [0, 1]],
    transform := fun q => if q = "" then [0, 0] else [1, 0] }

/-- A searcher before `generate_embeddings`. -/
def sUnready : Searcher :=
  { products := [pEx0, pEx1], embeddings := none, transform := fun _ => [0, 0] }

/-- A built searcher whose transform projects every query to the zero vector
(no vocabulary overlap at all). -/
def sReadyZero : Searcher :=
  { products := [pEx0, pEx1], embeddings := some [[1, 0], [0, 1]],
    transform := fun _ => [0, 0] }

/-- A built searcher with two identical rows: every query ties. -/
def sTie : Searcher :=
  { products := [pEx0, pEx1], embeddings := some [[1, 0], [1, 0]],
    transform := fun _ => [1, 0] }

/-- A built searcher whose first title contains the stop word `the`; the
fitted transform sends the stop-word-only query (empty count vector) to the
zero vector. -/
def sC10 : Searcher :=
  { products := [⟨"the lamp", "5 DH", "img"⟩, pEx1],
    embeddings := some [[1, 0], [0, 1]], transform := fun _ => [0, 0] }

instance (sims : List ℚ) : IsTotal ℕ (keyRel sims) where
  total a b := by
    unfold keyRel
    rcases lt_trichotomy (sims.getD a 0) (sims.getD b 0) with h | h | h
    · exact Or.inl (Or.inl h)
    · rcases Nat.le_total a b with hab | hab
      · exact Or.inl (Or.inr ⟨h, hab⟩)
      · exact Or.inr (Or.inr ⟨h.symm, hab⟩)
    · exact Or.inr (Or.inl h)

instance (sims : List ℚ) : IsTrans ℕ (keyRel sims) where
  trans a b c hab hbc := by
    unfold keyRel at hab hbc ⊢
    rcases hab with h1 | ⟨h1, h1'⟩
    · rcases hbc with h2 | ⟨h2, _⟩
      · exact Or.inl (h1.trans h2)
      · exact Or.inl (lt_of_lt_of_le h1 (le_of_eq h2))
    · rcases hbc with h2 | ⟨h2, h2'⟩
      · exact Or.inl (lt_of_le_of_lt (le_of_eq h1) h2)
      · exact Or.inr ⟨h1.trans h2, h1'.trans h2'⟩

theorem pyStrip_eq_stripRight_dropWhile (l : List Char) :
    pyStrip l = stripRight (l.dropWhile pyIsSpace) := rfl

theorem stripRight_nil : stripRight [] = [] := rfl

theorem stripRight_cons (c : Char) (x : List Char) :
    stripRight (c :: x) =
      if stripRight x = [] then (if pyIsSpace c then [] else [c])
      else c :: stripRight x := by
  unfold stripRight
  rw [List.reverse_cons, List.dropWhile_append]
  by_cases h : (x.reverse.dropWhile pyIsSpace).isEmpty
  · rw [if_pos h]
    have hx : x.reverse.dropWhile pyIsSpace = [] := by
      simpa [List.isEmpty_iff] using h
    rw [hx]
    simp only [List.reverse_nil, List.dropWhile, if_pos rfl]
    by_cases hc : pyIsSpace c
    · simp [hc]
    · simp [hc]
  · rw [if_neg h]
    have hx : x.reverse.dropWhile pyIsSpace ≠ [] := by
      simpa [List.isEmpty_iff] using h
    rw [if_neg (by simpa using hx)]
    simp

theorem collapseWs_cons_nonspace (c : Char) (cs : List Char) (h : ¬ pyIsSpace c) :
    collapseWs (c :: cs) = c :: collapseWs cs := by
  cases cs with
  | nil => simp [collapseWs, h]
  | cons c2 cs' => simp [collapseWs, h]

theorem joinWords_cons (w : List Char) (ws : List (List Char)) :
    joinWords (w :: ws) = w ++ (if ws = [] then [] else ' ' :: joinWords ws) := by
  cases ws with
  | nil => simp [joinWords]
  | cons w2 ws' => simp [joinWords]

theorem specWords_cons_space (c : Char) (cs : List Char) (h : pyIsSpace c) :
    specWords (c :: cs) = specWords cs := by
  rw [specWords]
  simp [h]

theorem specWords_cons_nonspace (c : Char) (cs : List Char) (h : ¬ pyIsSpace c) :
    specWords (c :: cs) =
      (c :: cs.takeWhile (fun d => !pyIsSpace d)) ::
        specWords (cs.dropWhile (fun d => !pyIsSpace d)) := by
  rw [specWords]
  simp [h]

theorem stripRight_collapseWs (cs : List Char) :
    stripRight (collapseWs cs) =
      cs.takeWhile (fun d => !pyIsSpace d) ++
        (if specWords (cs.dropWhile (fun d => !pyIsSpace d)) = [] then []
         else ' ' :: joinWords (specWords (cs.dropWhile (fun d => !pyIsSpace d)))) := by
  induction cs with
  | nil => simp [collapseWs, stripRight, specWords]
  | cons c cs' ih =>
    by_cases hc : pyIsSpace c
    · -- whitespace head: nothing is taken, everything is dropped
      rw [List.takeWhile_cons, List.dropWhile_cons]
      simp only [hc, Bool.not_true, Bool.false_eq_true, if_false, List.nil_append]
      rw [specWords_cons_space c cs' hc]
      cases cs' with
      | nil =>
        have h1 : collapseWs [c] = [' '] := by simp [collapseWs, hc]
        have h2 : stripRight [' '] = [] := by
          simp [stripRight, List.dropWhile, pyIsSpace]
        rw [h1, h2]
        simp [specWords]
      | cons c2 cs'' =>
        by_cases hc2 : pyIsSpace c2
        · have hcoll : collapseWs (c :: c2 :: cs'') = collapseWs (c2 :: cs'') := by
            simp [collapseWs, hc, hc2]
          rw [hcoll, ih]
          rw [List.takeWhile_cons, List.dropWhile_cons]
          simp only [hc2, Bool.not_true, Bool.false_eq_true, if_false, List.nil_append]
        · have hcoll : collapseWs (c :: c2 :: cs'') = ' ' :: collapseWs (c2 :: cs'') := by
            simp [collapseWs, hc, hc2]
          have hne : stripRight (collapseWs (c2 :: cs'')) ≠ [] := by
            rw [ih, List.takeWhile_cons]
            simp [hc2]
          rw [hcoll, stripRight_cons, if_neg hne, ih]
          rw [specWords_cons_nonspace c2 cs'' hc2, joinWords_cons]
          rw [List.takeWhile_cons, List.dropWhile_cons]
          simp [hc2]
    · -- non-whitespace head: it starts the first word
      rw [List.takeWhile_cons, List.dropWhile_cons]
      simp only [hc, Bool.not_false, if_true]
      rw [collapseWs_cons_nonspace c cs' hc, stripRight_cons]
      by_cases hz : stripRight (collapseWs cs') = []
      · rw [if_pos hz, if_neg (by simp [hc])]
        rw [ih] at hz
        rcases List.append_eq_nil.mp hz with ⟨h1, h2⟩
        rw [h1]
        by_cases hw : specWords (cs'.dropWhile (fun d => !pyIsSpace d)) = []
        · rw [if_pos hw]
          simp
        · rw [if_neg hw] at h2
          exact absurd h2 (by simp)
      · rw [if_neg hz, ih]
        simp

theorem pyStrip_collapseWs (l : List Char) :
    pyStrip (collapseWs l) = joinWords (specWords l) := by
  induction l with
  | nil => simp [collapseWs, pyStrip, joinWords, specWords]
  | cons c ls ih =>
    by_cases hc : pyIsSpace c
    · have h1 : pyStrip (collapseWs (c :: ls)) = pyStrip (collapseWs ls) := by
        cases ls with
        | nil =>
          have : collapseWs [c] = [' '] := by simp [collapseWs, hc]
          rw [this]
          simp [collapseWs, pyStrip, List.dropWhile, pyIsSpace]
        | cons c2 ls' =>
          by_cases hc2 : pyIsSpace c2
          · have : collapseWs (c :: c2 :: ls') = collapseWs (c2 :: ls') := by
              simp [collapseWs, hc, hc2]
            rw [this]
          · have : collapseWs (c :: c2 :: ls') = ' ' :: collapseWs (c2 :: ls') := by
              simp [collapseWs, hc, hc2]
            rw [this]
            unfold pyStrip
            rw [List.dropWhile_cons]
            simp [pyIsSpace]
      rw [h1, ih, specWords_cons_space c ls hc]
    · rw [collapseWs_cons_nonspace c ls hc]
      have hps : pyStrip (c :: collapseWs ls) = stripRight (c :: collapseWs ls) := by
        rw [pyStrip_eq_stripRight_dropWhile, List.dropWhile_cons]
        simp [hc]
      rw [hps, stripRight_cons, specWords_cons_nonspace c ls hc, joinWords_cons]
      by_cases hz : stripRight (collapseWs ls) = []
      · rw [if_pos hz, if_neg hc]
        rw [stripRight_collapseWs ls] at hz
        rcases List.append_eq_nil.mp hz with ⟨h1, h2⟩
        rw [h1]
        by_cases hw : specWords (ls.dropWhile (fun d => !pyIsSpace d)) = []
        · rw [if_pos hw]
          simp
        · rw [if_neg hw] at h2
          exact absurd h2 (by simp)
      · rw [if_neg hz, stripRight_collapseWs ls]
        simp

/-- C8: for every input value, `preprocess_text` returns the empty string on a
non-string input, and otherwise lowercases, removes every character that is not
a lowercase Latin letter or whitespace, collapses whitespace runs to single
spaces and trims, in exactly that order (pure function, no side effects).
Stated as: the source transform coincides with the spec-side pipeline
`normalizeSpec`, whose steps are the spec's words. -/
theorem C8_preprocess_text_follows_spec (input : Option String) :
    preprocess_text input = normalizeSpec input := by
  cases input with
  | none => rfl
  | some t =>
    show String.mk (pyStrip (collapseWs (stripNonAlpha (t.toList.map Char.toLower)))) = _
    rw [pyStrip_collapseWs]
    rfl

example : preprocess_text (some "  Chocolat NOIR 70%, 100g!  ") = "chocolat noir g" := by decide

example : preprocess_text none = "" := rfl

example : analyze "the dark chocolate" = ["dark", "chocolate", "dark chocolate"] := by decide
example : buildVocabulary ["red apple", "green banana"] =
    ["apple", "banana", "green", "green banana", "red", "red apple"] := by
  with_unfolding_all decide
example : countVector ["apple", "red apple"] "red apple" = [1, 1] := by decide
example : countVector ["apple", "red apple"] "the" = [0, 0] := by decide

example : search sReady2 "x" 5 =
    ([], [⟨0, "Lait entier 1L", "10 DH", "img0", 1, 100⟩]) := by
  with_unfolding_all decide

example : similar_products sReady2 0 5 =
    SimilarOutcome.ok [⟨1, "Chocolat noir", "20 DH", "img1", 0, 0⟩,
      ⟨0, "Lait entier 1L", "10 DH", "img0", -1, -100⟩] := by
  with_unfolding_all decide

example : similar_products sReady2 (-1) 5 = SimilarOutcome.pyError := by
  with_unfolding_all decide

example : similar_products sReady2 (-2) 5 = similar_products sReady2 0 5 := by
  with_unfolding_all decide

example : similar_products sReady2 2 5 = SimilarOutcome.invalidIndex 2 := by
  with_unfolding_all decide

example : search_by_category (some ["a", "a"]) sReady2 "q" "a" 5 =
    some ([], [⟨0, "Lait entier 1L", "10 DH", "img0", 1, 100⟩,
      ⟨1, "Chocolat noir", "20 DH", "img1", 0, 0⟩]) := by
  with_unfolding_all decide

example : batch_search sReady2 ["x", ""] 3 =
    [("x", [⟨0, "Lait entier 1L", "10 DH", "img0", 1, 100⟩]), ("", [])] := by
  with_unfolding_all decide

example : search sTie "q" 5 =
    ([], [⟨1, "Chocolat noir", "20 DH", "img1", 1, 100⟩,
      ⟨0, "Lait entier 1L", "10 DH", "img0", 1, 100⟩]) := by
  with_unfolding_all decide

theorem argsort_perm (sims : List ℚ) :
    List.Perm (argsort sims) (List.range sims.length) :=
  List.perm_insertionSort _ _

theorem mem_argsort {sims : List ℚ} {i : ℕ} :
    i ∈ argsort sims ↔ i < sims.length := by
  rw [argsort, List.mem_insertionSort, List.mem_range]

theorem argsort_length (sims : List ℚ) :
    (argsort sims).length = sims.length := by
  rw [(argsort_perm sims).length_eq, List.length_range]

theorem argsort_nodup (sims : List ℚ) : (argsort sims).Nodup :=
  ((argsort_perm sims).nodup_iff).mpr (List.nodup_range _)

theorem argsort_sorted (sims : List ℚ) :
    (argsort sims).Pairwise (keyRel sims) :=
  List.sorted_insertionSort _ _

theorem argsort_eq_cons_of_strict_min (sims : List ℚ) (i : ℕ)
    (hi : i < sims.length)
    (hmin : ∀ j, j < sims.length → j ≠ i → sims.getD i 0 < sims.getD j 0) :
    ∃ rest, argsort sims = i :: rest := by
  have hmem : i ∈ argsort sims := mem_argsort.mpr hi
  cases h : argsort sims with
  | nil => rw [h] at hmem; cases hmem
  | cons h0 t =>
    refine ⟨t, ?_⟩
    by_cases he : h0 = i
    · rw [he]
    · exfalso
      have hh0 : h0 ∈ argsort sims := by
        rw [h]; exact List.mem_cons_self _ _
      have hh0len : h0 < sims.length := mem_argsort.mp hh0
      have hit : i ∈ t := by
        rw [h] at hmem
        rcases List.mem_cons.mp hmem with h' | h'
        · exact absurd h'.symm he
        · exact h'
      have hsorted := argsort_sorted sims
      rw [h] at hsorted
      have hk : keyRel sims h0 i := (List.pairwise_cons.mp hsorted).1 i hit
      have hlt : sims.getD i 0 < sims.getD h0 0 := hmin h0 hh0len he
      rcases hk with hk | ⟨hk, _⟩
      · exact absurd hk (not_lt.mpr hlt.le)
      · exact (ne_of_gt hlt) hk

theorem rankDescIdx_pairwise (sims : List ℚ) (k : ℕ) :
    (rankDescIdx sims k).Pairwise (fun i j => keyRel sims j i ∧ j ≠ i) := by
  have h1 : (argsort sims).Pairwise (fun i j => keyRel sims i j ∧ i ≠ j) :=
    (argsort_sorted sims).and (argsort_nodup sims)
  have h2 : ((argsort sims).reverse).Pairwise
      (fun i j => keyRel sims j i ∧ j ≠ i) :=
    List.pairwise_reverse.mpr h1
  exact List.Pairwise.sublist (List.take_sublist _ _) h2

theorem mem_rankDescIdx {sims : List ℚ} {k i : ℕ}
    (h : i ∈ rankDescIdx sims k) : i < sims.length := by
  unfold rankDescIdx at h
  exact mem_argsort.mp (List.mem_reverse.mp (List.mem_of_mem_take h))

theorem not_mem_rankDescIdx_of_head (sims : List ℚ) (i : ℕ) (k : ℕ)
    (rest : List ℕ) (h : argsort sims = i :: rest) (hk : k ≤ rest.length) :
    i ∉ rankDescIdx sims k := by
  unfold rankDescIdx
  rw [h, List.reverse_cons, List.take_append_of_le_length (by simpa using hk)]
  intro hmem
  have h1 : i ∈ rest := List.mem_reverse.mp (List.mem_of_mem_take hmem)
  have hnd := argsort_nodup sims
  rw [h] at hnd
  exact (List.nodup_cons.mp hnd).1 h1

theorem getD_set_self {l : List ℚ} {i : ℕ} (h : i < l.length) (a d : ℚ) :
    (l.set i a).getD i d = a := by
  simp [List.getD_eq_getElem?_getD, List.getElem?_set_self h]

theorem getD_set_ne {l : List ℚ} {i j : ℕ} (h : i ≠ j) (a d : ℚ) :
    (l.set i a).getD j d = l.getD j d := by
  simp [List.getD_eq_getElem?_getD, List.getElem?_set_ne h]

theorem getD_map_of_lt {α β : Type} (f : α → β) (l : List α) {j : ℕ}
    (h : j < l.length) (d : β) (d' : α) :
    (l.map f).getD j d = f (l.getD j d') := by
  simp [List.getD_eq_getElem?_getD, List.getElem?_eq_getElem h,
    List.getElem?_eq_getElem (show j < (l.map f).length by simpa using h)]

theorem getD_mem_of_lt {α : Type} (l : List α) {j : ℕ} (h : j < l.length)
    (d : α) : l.getD j d ∈ l := by
  have : l.getD j d = l.get ⟨j, h⟩ := by
    simp [List.getD_eq_getElem?_getD, List.getElem?_eq_getElem h]
  rw [this]
  exact List.get_mem l j h

theorem dot_nonneg : ∀ (u v : Vec), (∀ x ∈ u, 0 ≤ x) → (∀ x ∈ v, 0 ≤ x) →
    0 ≤ dot u v
  | [], _, _, _ => by simp [dot]
  | _ :: _, [], _, _ => by simp [dot]
  | a :: u, b :: v, hu, hv => by
    have ht : 0 ≤ dot u v :=
      dot_nonneg u v (fun x hx => hu x (List.mem_cons_of_mem _ hx))
        (fun x hx => hv x (List.mem_cons_of_mem _ hx))
    have ha := hu a (List.mem_cons_self _ _)
    have hb := hv b (List.mem_cons_self _ _)
    have : dot (a :: u) (b :: v) = a * b + dot u v := by
      simp [dot]
    rw [this]
    exact add_nonneg (mul_nonneg ha hb) ht

theorem dot_eq_zero_of_left_zero : ∀ (u v : Vec), (∀ x ∈ u, x = 0) →
    dot u v = 0
  | [], _, _ => by simp [dot]
  | _ :: _, [], _ => by simp [dot]
  | a :: u, b :: v, hu => by
    have ht : dot u v = 0 :=
      dot_eq_zero_of_left_zero u v (fun x hx => hu x (List.mem_cons_of_mem _ hx))
    have ha := hu a (List.mem_cons_self _ _)
    have : dot (a :: u) (b :: v) = a * b + dot u v := by
      simp [dot]
    rw [this, ha, ht, zero_mul, zero_add]

/-- C1 (amended): every entry of a `search` result list has strictly positive
similarity.  The positivity filter `if similarities[idx] > 0` exists only in
`search`; `search_by_category` and `similar_products` do not apply it — see
the counterexample, where a zero-similarity candidate is returned. -/
theorem C1_search_results_strictly_positive (s : Searcher) (query : String)
    (top_k : ℕ) : ∀ r ∈ (search s query top_k).2, 0 < r.similarite := by
  intro r hr
  rcases hemb : s.embeddings with _ | emb
  · simp [search, hemb] at hr
  · simp only [search, hemb] at hr
    rcases List.mem_filterMap.mp hr with ⟨idx, _, heq⟩
    by_cases hpos : 0 < ((emb.map (fun row =>
        cosine_similarity (s.transform (preprocess_text (some query))) row)).getD idx 0)
    · rw [if_pos hpos] at heq
      cases heq
      simpa [mkResult] using hpos
    · rw [if_neg hpos] at heq
      cases heq

/-- C1 witness: a concrete search result entry, with the theorem applied to
it. -/
theorem C1_witness :
    (⟨0, "Lait entier 1L", "10 DH", "img0", 1, 100⟩ : ScoredResult) ∈
      (search sReady2 "x" 5).2 ∧
    (0 : ℚ) < (⟨0, "Lait entier 1L", "10 DH", "img0", 1, 100⟩ :
      ScoredResult).similarite :=
  ⟨by with_unfolding_all decide,
   C1_search_results_strictly_positive sReady2 "x" 5 _
     (by with_unfolding_all decide)⟩

/-- C1 counterexample: `search_by_category` returns an entry whose similarity
is zero (non-positive), so the claim fails for that query shape. -/
theorem C1_counterexample_category_zero_score :
    ∃ out, search_by_category (some ["a", "a"]) sReady2 "q" "a" 5 = some out ∧
      ∃ r ∈ out.2, ¬ (0 : ℚ) < r.similarite := by
  refine ⟨([], [⟨0, "Lait entier 1L", "10 DH", "img0", 1, 100⟩,
    ⟨1, "Chocolat noir", "20 DH", "img1", 0, 0⟩]), ?_, ?_⟩
  · with_unfolding_all decide
  · exact ⟨⟨1, "Chocolat noir", "20 DH", "img1", 0, 0⟩, by decide, by decide⟩

theorem categoryIndices_strict_mono (cats : List String) (category : String)
    {p q : ℕ} (hpq : p < q) (hq : q < (categoryIndices cats category).length) :
    (categoryIndices cats category).getD p 0 <
      (categoryIndices cats category).getD q 0 := by
  have hpw : (categoryIndices cats category).Pairwise (fun a b => a < b) :=
    List.Pairwise.sublist (List.filter_sublist _) (List.pairwise_lt_range _)
  have hp : p < (categoryIndices cats category).length := lt_trans hpq hq
  have h := List.pairwise_iff_getElem.mp hpw p q hp hq hpq
  rw [List.getD_eq_getElem?_getD, List.getElem?_eq_getElem hp,
    List.getD_eq_getElem?_getD, List.getElem?_eq_getElem hq]
  exact h

/-- C3 (amended): the result lists of the ranking step are ordered by
non-increasing similarity, and whenever two entries have equal similarity the
one with the LARGER original row index comes first (ascending stable
`np.argsort` followed by `[::-1]` reverses the tie order): first conjunct
for `search` over the full matrix, second for `search_by_category`, whose
subset-local tie order maps through the strictly increasing
`category_indices` to the same larger-global-index-first rule (the `getD`
with default `([], [])` reads the result list of a call that returned one). -/
theorem C3_search_sorted_desc :
    (∀ (s : Searcher) (query : String) (top_k : ℕ),
      ((search s query top_k).2).Pairwise
        (fun a b => b.similarite < a.similarite ∨
          (b.similarite = a.similarite ∧ b.index < a.index))) ∧
    (∀ (csvData : Option (List String)) (s : Searcher)
      (query category : String) (top_k : ℕ),
      (((search_by_category csvData s query category top_k).getD
          ([], [])).2).Pairwise
        (fun a b => b.similarite < a.similarite ∨
          (b.similarite = a.similarite ∧ b.index < a.index))) := by
  constructor
  · intro s query top_k
    rcases hemb : s.embeddings with _ | emb
    · simp [search, hemb]
    · simp only [search, hemb]
      refine List.Pairwise.filterMap _ ?_ (rankDescIdx_pairwise _ top_k)
      intro a a' hR b hb b' hb'
      rcases hR with ⟨hk, hne⟩
      by_cases hpa : 0 < ((emb.map (fun row =>
          cosine_similarity (s.transform (preprocess_text (some query))) row)).getD a 0)
      · rw [if_pos hpa] at hb
        by_cases hpa' : 0 < ((emb.map (fun row =>
            cosine_similarity (s.transform (preprocess_text (some query))) row)).getD a' 0)
        · rw [if_pos hpa'] at hb'
          cases hb
          cases hb'
          rcases hk with h | ⟨h, hle⟩
          · exact Or.inl (by simpa [mkResult] using h)
          · exact Or.inr (by
              refine ⟨by simpa [mkResult] using h, ?_⟩
              simpa [mkResult] using lt_of_le_of_ne hle hne)
        · rw [if_neg hpa'] at hb'
          cases hb'
      · rw [if_neg hpa] at hb
        cases hb
  · intro csvData s query category top_k
    rcases csvData with _ | cats
    · simp [search_by_category]
    · simp only [search_by_category]
      by_cases hempty : (categoryIndices cats category).isEmpty
      · rw [if_pos hempty]
        simp
      · rw [if_neg hempty]
        rcases hemb : s.embeddings with _ | emb
        · simp
        · simp only [Option.getD_some]
          have hlene : (List.map (fun row => cosine_similarity
              (s.transform (preprocess_text (some query))) row)
              (List.map (fun i => emb.getD i [])
                (categoryIndices cats category))).length =
              (categoryIndices cats category).length := by
            simp
          have base := (rankDescIdx_pairwise (((categoryIndices cats
            category).map (fun i => emb.getD i [])).map
              (fun row => cosine_similarity
                (s.transform (preprocess_text (some query))) row)) top_k)
          have base' := List.Pairwise.and_mem.mp base
          refine List.Pairwise.map _ ?_ base'
          intro a b hab
          rcases hab with ⟨hma, hmb, hk, hne⟩
          rcases hk with h | ⟨h, hle⟩
          · exact Or.inl (by simpa [mkResult] using h)
          · refine Or.inr ⟨by simpa [mkResult] using h, ?_⟩
            have hblt : b < a := lt_of_le_of_ne hle hne
            have ha : a < (categoryIndices cats category).length := by
              have := mem_rankDescIdx hma
              rwa [hlene] at this
            have hmono := categoryIndices_strict_mono cats category hblt ha
            simpa [mkResult] using hmono


/-- C3 counterexample: two catalog items with identical rows tie on every
query; the entry with the larger index comes first, refuting the
smaller-index-first tie-break of the claim. -/
theorem C3_counterexample_tie_order :
    ¬ ((search sTie "q" 5).2).Pairwise
        (fun a b => b.similarite < a.similarite ∨
          (b.similarite = a.similarite ∧ a.index < b.index)) := by
  intro h
  have he : (search sTie "q" 5).2 =
      [⟨1, "Chocolat noir", "20 DH", "img1", 1, 100⟩,
       ⟨0, "Lait entier 1L", "10 DH", "img0", 1, 100⟩] := by
    with_unfolding_all decide
  rw [he] at h
  have h1 := (List.pairwise_cons.mp h).1 _ (List.mem_cons_self _ _)
  rcases h1 with h' | ⟨_, h'⟩
  · exact absurd h' (by decide)
  · exact absurd h' (by decide)

/-- C2 (amended): for a valid item index and any `top_k` strictly smaller
than the catalog size, the result of `similar_products` never contains the
item itself: the `-1` sentinel written over the self-similarity entry sorts
strictly below the (non-negative) cosine scores of all other rows, so the
self row is ranked last and the `top_k` cut drops it.  When `top_k` reaches
the catalog size the self row IS returned (with similarity `-1`) — see the
counterexample. -/
theorem C2_similar_products_excludes_self (s : Searcher) (emb : List Vec)
    (i k : ℕ) (hemb : s.embeddings = some emb)
    (hlen : emb.length = s.products.length)
    (hnn : ∀ row ∈ emb, ∀ x ∈ row, 0 ≤ x)
    (hi : i < s.products.length) (hk : k < s.products.length) :
    ∃ rs, similar_products s (i : ℤ) k = SimilarOutcome.ok rs ∧
      ∀ r ∈ rs, r.index ≠ i := by
  have hilen : i < emb.length := by rw [hlen]; exact hi
  have hg : ¬ ((s.products.length : ℤ) ≤ (i : ℤ)) := by
    exact_mod_cast not_le.mpr hi
  have h0i : (0 : ℤ) ≤ (i : ℤ) := Int.natCast_nonneg i
  have hilt : ((i : ℕ) : ℤ) < ((emb.length : ℕ) : ℤ) := by exact_mod_cast hilen
  have hneg : ¬ ((i : ℤ) < 0) := not_lt.mpr h0i
  have hrow : emb.getD i [] ∈ emb := getD_mem_of_lt emb hilen []
  have hunfold : similar_products s (i : ℤ) k =
      SimilarOutcome.ok
        ((rankDescIdx ((emb.map (fun r =>
            cosine_similarity (emb.getD i []) r)).set i (-1)) k).map
          (fun idx => mkResult s idx (((emb.map (fun r =>
            cosine_similarity (emb.getD i []) r)).set i (-1)).getD idx 0))) := by
    simp only [similar_products, hemb, pySliceRow, if_neg hg, if_pos h0i,
      if_pos hilt, if_neg hneg, Int.toNat_natCast]
  have hlensims : ((emb.map (fun r =>
      cosine_similarity (emb.getD i []) r)).set i (-1)).length = emb.length := by
    simp
  have hmin : ∀ j, j < ((emb.map (fun r =>
      cosine_similarity (emb.getD i []) r)).set i (-1)).length → j ≠ i →
      ((emb.map (fun r => cosine_similarity (emb.getD i []) r)).set i
        (-1)).getD i 0 <
      ((emb.map (fun r => cosine_similarity (emb.getD i []) r)).set i
        (-1)).getD j 0 := by
    intro j hj hji
    have hjlen : j < emb.length := by rwa [hlensims] at hj
    have e1 : ((emb.map (fun r => cosine_similarity (emb.getD i []) r)).set i
        (-1)).getD i 0 = -1 :=
      getD_set_self (by simpa using hilen) _ _
    have e2 : ((emb.map (fun r => cosine_similarity (emb.getD i []) r)).set i
        (-1)).getD j 0 =
        cosine_similarity (emb.getD i []) (emb.getD j []) := by
      rw [getD_set_ne (fun h => hji h.symm) _ _]
      exact getD_map_of_lt _ emb hjlen 0 []
    rw [e1, e2]
    have hpos : 0 ≤ cosine_similarity (emb.getD i []) (emb.getD j []) :=
      dot_nonneg _ _ (hnn _ hrow) (hnn _ (getD_mem_of_lt emb hjlen []))
    linarith
  obtain ⟨rest, hcons⟩ := argsort_eq_cons_of_strict_min _ i
    (by rw [hlensims]; exact hilen) hmin
  have hrestlen : k ≤ rest.length := by
    have h1 := argsort_length ((emb.map (fun r =>
      cosine_similarity (emb.getD i []) r)).set i (-1))
    rw [hcons] at h1
    simp only [List.length_cons, hlensims] at h1
    omega
  have hnotmem := not_mem_rankDescIdx_of_head _ i k rest hcons hrestlen
  refine ⟨_, hunfold, ?_⟩
  intro r hr
  rcases List.mem_map.mp hr with ⟨idx, hidx, heq⟩
  rw [← heq]
  intro hc
  have : idx = i := by simpa [mkResult] using hc
  exact hnotmem (this ▸ hidx)

/-- C2 witness: the theorem applied to a concrete two-item catalog with
`top_k = 1`. -/
theorem C2_witness :
    ∃ rs, similar_products sReady2 ((0 : ℕ) : ℤ) 1 = SimilarOutcome.ok rs ∧
      ∀ r ∈ rs, r.index ≠ 0 :=
  C2_similar_products_excludes_self sReady2 [[1, 0], [0, 1]] 0 1 rfl
    (by decide) (by with_unfolding_all decide) (by decide) (by decide)

/-- C2 counterexample: with `top_k = 5` on a two-item catalog (so `top_k`
at least the catalog size, as the claim's arbitrary `k` allows) the item's
own row is returned as the last entry, with the sentinel similarity `-1`. -/
theorem C2_counterexample_self_included :
    ∃ rs, similar_products sReady2 (0 : ℤ) 5 = SimilarOutcome.ok rs ∧
      ∃ r ∈ rs, r.index = 0 := by
  refine ⟨[⟨1, "Chocolat noir", "20 DH", "img1", 0, 0⟩,
    ⟨0, "Lait entier 1L", "10 DH", "img0", -1, -100⟩], ?_, ?_⟩
  · with_unfolding_all decide
  · exact ⟨⟨0, "Lait entier 1L", "10 DH", "img0", -1, -100⟩,
      by with_unfolding_all decide, rfl⟩

/-- C4: evaluation at the failing inputs.  The guard only checks
`product_index >= len(self.products)`, so `len` is rejected cleanly, but
`-1` (and every index below `-len`) reaches the empty numpy slice and raises
`IndexError` instead of failing with an empty result, and `-2` silently wraps
around to the row `len - 2` and returns its neighbours. -/
theorem C4_invalid_index_behaviour :
    similar_products sReady2 (-1) 5 = SimilarOutcome.pyError ∧
    similar_products sReady2 (-3) 5 = SimilarOutcome.pyError ∧
    similar_products sReady2 2 5 = SimilarOutcome.invalidIndex 2 ∧
    similar_products sReady2 (-2) 5 = similar_products sReady2 0 5 := by
  refine ⟨?_, ?_, ?_, ?_⟩ <;> with_unfolding_all decide

/-- C5 counterexample: the result list returned for a query issued before the
index build equals the result list of a built index finding nothing, so the
returned value does not carry a distinguishable NotReady condition. -/
theorem C5_counterexample_indistinguishable_empty :
    sUnready.embeddings = none ∧ sReadyZero.embeddings ≠ none ∧
    (search sUnready "lait" 5).2 = (search sReadyZero "lait" 5).2 := by
  refine ⟨rfl, ?_, ?_⟩ <;> with_unfolding_all decide

/-- C5 (amended): a search issued before the index build prints the
embeddings-not-generated message and returns the empty list; a search on a
built index never prints it.  The NotReady condition is therefore
distinguishable only on the console channel — the returned result list is an
empty list identical to a ran-but-found-nothing result (see the
counterexample). -/
theorem C5_not_ready_console_message (s s' : Searcher) (q q' : String)
    (k k' : ℕ) (h : s.embeddings = none) (emb : List Vec)
    (h' : s'.embeddings = some emb) :
    search s q k = ([Console.embeddingsNotGenerated], []) ∧
    (search s' q' k').1 = [] := by
  constructor
  · simp [search, h]
  · simp [search, h']

/-- C5 witness: the amended theorem at concrete states. -/
theorem C5_witness :
    search sUnready "lait" 5 = ([Console.embeddingsNotGenerated], []) ∧
    (search sReadyZero "lait" 5).1 = [] :=
  C5_not_ready_console_message sUnready sReadyZero "lait" "lait" 5 5 rfl
    [[1, 0], [0, 1]] rfl

/-- C9 counterexample: `search_by_category` performs disk I/O (it re-reads
the category csv) during query evaluation. -/
theorem C9_counterexample_category_reads_csv :
    search_by_categoryIOTrace sReady2 "lait" "a" 5 ≠ [] := by decide

/-- C9 (amended): `search`, `batch_search` and `similar_products` perform no
network or disk I/O; `search_by_category` additionally reads the category
csv from disk on every call; catalog loading and result export perform
exactly their stated read and write. -/
theorem C9_io_traces (s : Searcher) (q c f : String) (qs : List String)
    (i : ℤ) (k : ℕ) :
    searchIOTrace s q k = [] ∧ batch_searchIOTrace s qs k = [] ∧
    similar_productsIOTrace s i k = [] ∧
    search_by_categoryIOTrace s q c k =
      [IOEffect.fsRead "produits_marjane_clean.csv"] ∧
    load_productsIOTrace f = [IOEffect.fsRead f] ∧
    export_resultsIOTrace f = [IOEffect.fsWrite f] :=
  ⟨rfl, rfl, rfl, rfl, rfl, rfl⟩

/-- C6: every index of a `search_by_category` result belongs to the set of
csv rows whose category equals the label, and the entry's similarity is the
cosine score computed for that same catalog row (the subset-local ranks are
mapped back through `category_indices`).  The alignment hypothesis `hlen`
states the csv and the matrix are keyed by the same row order, the regime
the spec assumes for the external category input. -/
theorem C6_search_by_category_subset_and_scores (cats : List String)
    (s : Searcher) (emb : List Vec) (query category : String) (k : ℕ)
    (hemb : s.embeddings = some emb) (_hlen : cats.length = emb.length) :
    ∃ out, search_by_category (some cats) s query category k = some out ∧
      ∀ r ∈ out.2,
        (r.index < cats.length ∧ cats.getD r.index "" = category) ∧
        r.similarite = cosine_similarity
          (s.transform (preprocess_text (some query)))
          (emb.getD r.index []) := by
  by_cases hempty : (categoryIndices cats category).isEmpty
  · refine ⟨([Console.categoryNotFound category], []), ?_, ?_⟩
    · simp only [search_by_category]
      rw [if_pos hempty]
    · intro r hr
      simp at hr
  · set qv := s.transform (preprocess_text (some query)) with hqv
    set catIdx := categoryIndices cats category with hcat
    set catEmb := catIdx.map (fun i => emb.getD i []) with hce
    set sims := catEmb.map (fun row => cosine_similarity qv row) with hsims
    refine ⟨([], (rankDescIdx sims k).map (fun li =>
      mkResult s (catIdx.getD li 0) (sims.getD li 0))), ?_, ?_⟩
    · simp only [search_by_category, hemb]
      rw [if_neg hempty]
    · intro r hr
      rcases List.mem_map.mp hr with ⟨li, hli, heq⟩
      have hlis : li < sims.length := mem_rankDescIdx hli
      have hlene : sims.length = catIdx.length := by
        rw [hsims, hce]; simp
      have hlic : li < catIdx.length := by omega
      have hlice : li < catEmb.length := by
        rw [hce]; simpa using hlic
      have hgmem : catIdx.getD li 0 ∈ catIdx := getD_mem_of_lt catIdx hlic 0
      have hg : catIdx.getD li 0 ∈ List.range cats.length ∧
          (cats.getD (catIdx.getD li 0) "" == category) = true := by
        have h1 := hgmem
        rw [hcat] at h1
        unfold categoryIndices at h1
        exact List.mem_filter.mp h1
      have hsim1 : sims.getD li 0 = cosine_similarity qv (catEmb.getD li []) := by
        rw [hsims]
        exact getD_map_of_lt _ catEmb hlice 0 []
      have hsim2 : catEmb.getD li [] = emb.getD (catIdx.getD li 0) [] := by
        rw [hce]
        exact getD_map_of_lt _ catIdx hlic [] 0
      rw [← heq]
      refine ⟨⟨?_, ?_⟩, ?_⟩
      · simpa [mkResult] using List.mem_range.mp hg.1
      · simpa [mkResult] using eq_of_beq hg.2
      · show (mkResult s (catIdx.getD li 0) (sims.getD li 0)).similarite = _
        simp only [mkResult]
        rw [hsim1, hsim2]

/-- C6 witness: the theorem applied to a concrete two-category catalog. -/
theorem C6_witness :
    ∃ out, search_by_category (some ["a", "b"]) sReady2 "lait" "b" 5 =
        some out ∧
      ∀ r ∈ out.2,
        (r.index < (["a", "b"] : List String).length ∧
          (["a", "b"] : List String).getD r.index "" = "b") ∧
        r.similarite = cosine_similarity
          (sReady2.transform (preprocess_text (some "lait")))
          (([[1, 0], [0, 1]] : List Vec).getD r.index []) :=
  C6_search_by_category_subset_and_scores ["a", "b"] sReady2 [[1, 0], [0, 1]]
    "lait" "b" 5 rfl (by decide)

theorem lookup_cons {β : Type} (q : String) (p : String × β)
    (rest : List (String × β)) :
    List.lookup q (p :: rest) =
      if q == p.1 then some p.2 else List.lookup q rest := by
  rcases p with ⟨a, b⟩
  by_cases h : q == a
  · simp [List.lookup, h]
  · have hf : (q == a) = false := by simpa using h
    simp [List.lookup, hf]

theorem beq_false_of_ne {a b : String} (h : a ≠ b) : (a == b) = false := by
  simpa using h

theorem lookup_map_update {β : Type} (k : String) (v : β) :
    ∀ d : List (String × β), d.any (fun p => p.1 == k) = true →
    List.lookup k (d.map (fun p => if p.1 == k then (k, v) else p)) = some v
  | [], h => by simp at h
  | p :: rest, h => by
    rw [List.map_cons]
    by_cases hp : p.1 == k
    · rw [if_pos hp, lookup_cons]
      simp
    · rw [if_neg hp, lookup_cons]
      have hpk : k ≠ p.1 := fun he => hp (beq_iff_eq.mpr he.symm)
      rw [if_neg (by simpa using beq_false_of_ne hpk)]
      have hrest : rest.any (fun p => p.1 == k) = true := by
        simpa [List.any_cons, hp] using h
      exact lookup_map_update k v rest hrest

theorem lookup_append_new {β : Type} (k : String) (v : β) :
    ∀ d : List (String × β), d.any (fun p => p.1 == k) = false →
    List.lookup k (d ++ [(k, v)]) = some v
  | [], _ => by simp [List.lookup]
  | p :: rest, h => by
    simp only [List.any_cons, Bool.or_eq_false_iff] at h
    have hpk : k ≠ p.1 := (ne_of_beq_false h.1).symm
    rw [List.cons_append, lookup_cons, if_neg (by simpa using beq_false_of_ne hpk)]
    exact lookup_append_new k v rest h.2

theorem lookup_dictInsert_self {β : Type} (k : String) (v : β)
    (d : List (String × β)) :
    List.lookup k (dictInsert d k v) = some v := by
  unfold dictInsert
  by_cases hany : d.any (fun p => p.1 == k)
  · rw [if_pos hany]
    exact lookup_map_update k v d hany
  · rw [if_neg hany]
    exact lookup_append_new k v d (Bool.eq_false_iff.mpr hany)

theorem lookup_map_ne {β : Type} (q k : String) (hne : q ≠ k) (v : β) :
    ∀ d : List (String × β),
    List.lookup q (d.map (fun p => if p.1 == k then (k, v) else p)) =
      List.lookup q d
  | [] => rfl
  | p :: rest => by
    rw [List.map_cons, lookup_cons (q := q) (p := p)]
    by_cases hp : p.1 == k
    · have hpk : p.1 = k := eq_of_beq hp
      rw [if_pos hp, lookup_cons]
      have h1 : (q == k) = false := beq_false_of_ne hne
      have h2 : (q == p.1) = false := by rw [hpk]; exact h1
      rw [if_neg (by simpa using h1), if_neg (by simpa using h2)]
      exact lookup_map_ne q k hne v rest
    · rw [if_neg hp, lookup_cons]
      by_cases hq : q == p.1
      · rw [if_pos hq, if_pos hq]
      · rw [if_neg hq, if_neg hq]
        exact lookup_map_ne q k hne v rest

theorem lookup_append_ne {β : Type} (q k : String) (hne : q ≠ k) (v : β) :
    ∀ d : List (String × β),
    List.lookup q (d ++ [(k, v)]) = List.lookup q d
  | [] => by
    have h1 : (q == k) = false := beq_false_of_ne hne
    simp [List.lookup, h1]
  | p :: rest => by
    rw [List.cons_append, lookup_cons, lookup_cons]
    by_cases hq : q == p.1
    · rw [if_pos hq, if_pos hq]
    · rw [if_neg hq, if_neg hq]
      exact lookup_append_ne q k hne v rest

theorem lookup_dictInsert_ne {β : Type} (q k : String) (hne : q ≠ k) (v : β)
    (d : List (String × β)) :
    List.lookup q (dictInsert d k v) = List.lookup q d := by
  unfold dictInsert
  by_cases hany : d.any (fun p => p.1 == k)
  · rw [if_pos hany]
    exact lookup_map_ne q k hne v d
  · rw [if_neg hany]
    exact lookup_append_ne q k hne v d

theorem lookup_foldl_dictInsert_not_mem {β : Type} (F : String → β)
    (q : String) :
    ∀ (l : List String) (acc : List (String × β)), q ∉ l →
    List.lookup q (l.foldl (fun acc q' => dictInsert acc q' (F q')) acc) =
      List.lookup q acc
  | [], _, _ => rfl
  | q' :: rest, acc, h => by
    have h1 : q ≠ q' := fun he => h (he ▸ List.mem_cons_self q' rest)
    have h2 : q ∉ rest := fun hm => h (List.mem_cons_of_mem _ hm)
    simp only [List.foldl_cons]
    rw [lookup_foldl_dictInsert_not_mem F q rest _ h2,
      lookup_dictInsert_ne q q' h1 (F q') acc]

theorem lookup_foldl_dictInsert_mem {β : Type} (F : String → β) (q : String) :
    ∀ (l : List String) (acc : List (String × β)), q ∈ l →
    List.lookup q (l.foldl (fun acc q' => dictInsert acc q' (F q')) acc) =
      some (F q)
  | [], _, h => absurd h (List.not_mem_nil q)
  | q' :: rest, acc, h => by
    simp only [List.foldl_cons]
    by_cases hr : q ∈ rest
    · exact lookup_foldl_dictInsert_mem F q rest _ hr
    · have hq : q = q' := by
        rcases List.mem_cons.mp h with he | hm
        · exact he
        · exact absurd hm hr
      subst hq
      rw [lookup_foldl_dictInsert_not_mem F q rest _ hr, lookup_dictInsert_self]

theorem keys_dictInsert {β : Type} (d : List (String × β)) (k : String)
    (v : β) :
    (dictInsert d k v).map Prod.fst =
      if (d.map Prod.fst).contains k then d.map Prod.fst
      else d.map Prod.fst ++ [k] := by
  unfold dictInsert
  by_cases hany : d.any (fun p => p.1 == k)
  · rw [if_pos hany]
    have hmem : k ∈ d.map Prod.fst := by
      rcases List.any_eq_true.mp hany with ⟨p, hp, hbeq⟩
      exact List.mem_map.mpr ⟨p, hp, eq_of_beq hbeq⟩
    have hc : (d.map Prod.fst).contains k = true := List.elem_iff.mpr hmem
    rw [if_pos hc, List.map_map]
    apply List.map_congr_left
    intro p hp
    by_cases hpk : p.1 == k
    · have he := eq_of_beq hpk
      simp [Function.comp, hpk, he]
    · simp [Function.comp, hpk]
  · rw [if_neg hany]
    have hc : (d.map Prod.fst).contains k = false := by
      apply Bool.eq_false_iff.mpr
      intro hcontra
      have hk : k ∈ d.map Prod.fst := List.elem_iff.mp hcontra
      rcases List.mem_map.mp hk with ⟨p, hp, hfst⟩
      exact hany (List.any_eq_true.mpr ⟨p, hp, beq_iff_eq.mpr hfst⟩)
    rw [if_neg (by rw [hc]; exact Bool.false_ne_true)]
    simp

theorem keys_foldl_dictInsert {β : Type} (F : String → β) :
    ∀ (l : List String) (acc : List (String × β)),
    (l.foldl (fun acc q => dictInsert acc q (F q)) acc).map Prod.fst =
      l.foldl (fun ks q => if ks.contains q then ks else ks ++ [q])
        (acc.map Prod.fst)
  | [], _ => rfl
  | q :: rest, acc => by
    simp only [List.foldl_cons]
    rw [keys_foldl_dictInsert F rest _, keys_dictInsert]

theorem batch_search_keys (s : Searcher) (queries : List String) (k : ℕ) :
    (batch_search s queries k).map Prod.fst = firstDedup queries := by
  unfold batch_search firstDedup
  rw [keys_foldl_dictInsert]
  rfl

theorem search_empty_of_zero_transform (s : Searcher) (q : String) (k : ℕ)
    (hz : ∀ x ∈ s.transform (preprocess_text (some q)), x = (0 : ℚ)) :
    (search s q k).2 = [] := by
  rcases hemb : s.embeddings with _ | emb
  · simp [search, hemb]
  · simp only [search, hemb]
    apply List.filterMap_eq_nil_iff.mpr
    intro idx _
    have hc : ((emb.map (fun row => cosine_similarity
        (s.transform (preprocess_text (some q))) row)).getD idx 0) = 0 := by
      by_cases hlt : idx < emb.length
      · rw [getD_map_of_lt _ emb hlt 0 []]
        exact dot_eq_zero_of_left_zero _ _ hz
      · rw [List.getD_eq_getElem?_getD, List.getElem?_eq_none (by simpa using not_lt.mp hlt)]
        rfl
    rw [hc]
    simp

/-- C7: `batch_search` returns an insertion-ordered mapping with one entry
per (distinct) query string of the input sequence, in first-occurrence
order, each bound to exactly the result of an independent `search` of that
query; an empty-string query (whose projection is the zero vector, as the
fitted vectorizer produces for an empty count vector) maps to the empty
result list without affecting the other entries. -/
theorem C7_batch_search_independent (s : Searcher) (queries : List String)
    (k : ℕ) :
    ((batch_search s queries k).map Prod.fst = firstDedup queries) ∧
    (∀ q ∈ queries, List.lookup q (batch_search s queries k) =
      some (search s q k).2) ∧
    ((∀ x ∈ s.transform (preprocess_text (some "")), x = (0 : ℚ)) →
      "" ∈ queries →
      List.lookup "" (batch_search s queries k) = some []) := by
  refine ⟨batch_search_keys s queries k, ?_, ?_⟩
  · intro q hq
    exact lookup_foldl_dictInsert_mem (fun q' => (search s q' k).2) q queries
      [] hq
  · intro hz hmem
    have h1 := lookup_foldl_dictInsert_mem (fun q' => (search s q' k).2) ""
      queries [] hmem
    simp only at h1
    rw [search_empty_of_zero_transform s "" k hz] at h1
    exact h1

/-- C7 witness: a three-query batch containing the empty string. -/
theorem C7_witness :
    List.lookup "lait" (batch_search sReady2 ["lait", "", "choco"] 3) =
      some (search sReady2 "lait" 3).2 ∧
    List.lookup "" (batch_search sReady2 ["lait", "", "choco"] 3) =
      some [] :=
  ⟨(C7_batch_search_independent sReady2 ["lait", "", "choco"] 3).2.1 "lait"
      (by decide),
   (C7_batch_search_independent sReady2 ["lait", "", "choco"] 3).2.2
      (by with_unfolding_all decide) (by decide)⟩

theorem exists_of_mem_zipWith {α β γ : Type} {f : α → β → γ} :
    ∀ {l₁ : List α} {l₂ : List β} {c : γ}, c ∈ List.zipWith f l₁ l₂ →
    ∃ a b, a ∈ l₁ ∧ b ∈ l₂ ∧ c = f a b
  | [], _, _, h => by simp at h
  | _ :: _, [], _, h => by simp at h
  | a :: l₁, b :: l₂, c, h => by
    rcases List.mem_cons.mp h with he | hm
    · exact ⟨a, b, List.mem_cons_self _ _, List.mem_cons_self _ _, he⟩
    · rcases exists_of_mem_zipWith hm with ⟨a', b', ha, hb, he⟩
      exact ⟨a', b', List.mem_cons_of_mem _ ha, List.mem_cons_of_mem _ hb, he⟩

set_option maxRecDepth 8192 in
theorem no_space_in_stop_words :
    ∀ w ∈ sklearnStopWords, ' ' ∉ w.data := by decide

theorem mem_analyze_not_stop (t doc : String) (h : t ∈ analyze doc) :
    t ∉ sklearnStopWords := by
  unfold analyze ngrams12 at h
  rcases List.mem_append.mp h with h1 | h2
  · -- a unigram survived the stop-word filter
    have hf := List.mem_filter.mp h1
    intro hmem
    have hc : sklearnStopWords.contains t = true := List.elem_iff.mpr hmem
    rw [hc] at hf
    simp at hf
  · -- a bigram contains a space, and no stop word does
    rcases exists_of_mem_zipWith h2 with ⟨a, b, -, -, he⟩
    intro hmem
    have hsp : ' ' ∈ t.data := by
      rw [he]
      unfold bigramJoin
      rw [String.data_append, String.data_append]
      refine List.mem_append.mpr (Or.inl (List.mem_append.mpr (Or.inr ?_)))
      exact List.mem_cons_self _ _
    exact no_space_in_stop_words t hmem hsp

theorem mem_buildVocabulary_exists_doc (corpus : List String) (t : String)
    (h : t ∈ buildVocabulary corpus) : ∃ doc ∈ corpus, t ∈ analyze doc := by
  simp only [buildVocabulary] at h
  have hkept : t ∈ ((corpus.map analyze).flatten.dedup).insertionSort
      (fun a b => a ≤ b) := by
    split at h
    · exact (List.mem_filter.mp h).1
    · have h1 := (List.mem_insertionSort _).mp h
      have h2 := List.mem_of_mem_take h1
      have h3 := (List.mem_insertionSort _).mp h2
      exact (List.mem_filter.mp h3).1
  have h4 : t ∈ (corpus.map analyze).flatten :=
    List.mem_dedup.mp ((List.mem_insertionSort _).mp hkept)
  rcases List.mem_flatten.mp h4 with ⟨d, hd, htd⟩
  rcases List.mem_map.mp hd with ⟨doc, hdoc, he⟩
  exact ⟨doc, hdoc, he ▸ htd⟩

/-- C10: the vocabulary built by the indexer never contains an English stop
word (first conjunct); the count vector of the query `the` — a stop word
occurring in catalog titles or not — is the zero vector over any vocabulary
(second conjunct); and a query whose projection is the zero vector produces
an empty `search` result (third conjunct), because every cosine score is
zero and the positivity filter drops it.  The spec's §4.2 exclusion rules
(min_df, max_df, top-max_features) do not mention this stop-word pruning. -/
theorem C10_stop_word_pruning :
    (∀ (corpus : List String) (t : String),
      t ∈ buildVocabulary corpus → t ∉ sklearnStopWords) ∧
    (∀ vocab : List String,
      countVector vocab "the" = List.replicate vocab.length 0) ∧
    (∀ (s : Searcher) (q : String) (k : ℕ),
      (∀ x ∈ s.transform (preprocess_text (some q)), x = (0 : ℚ)) →
      (search s q k).2 = []) := by
  refine ⟨?_, ?_, ?_⟩
  · intro corpus t h
    rcases mem_buildVocabulary_exists_doc corpus t h with ⟨doc, -, hmem⟩
    exact mem_analyze_not_stop t doc hmem
  · intro vocab
    have hth : analyze "the" = [] := by decide
    unfold countVector
    rw [hth]
    simp [List.count_nil, List.map_const']
  · exact fun s q k hz => search_empty_of_zero_transform s q k hz

/-- C10 witness: a concrete corpus whose vocabulary term is applied to the
first conjunct, a concrete vocabulary for the second, and a searcher whose
catalog titles contain the stop word `the` for the third. -/
theorem C10_witness :
    "apple" ∉ sklearnStopWords ∧
    countVector ["lamp", "desk lamp"] "the" = List.replicate 2 0 ∧
    (search sC10 "the" 5).2 = [] :=
  ⟨C10_stop_word_pruning.1 ["red apple", "green banana"] "apple"
      (by with_unfolding_all decide),
   C10_stop_word_pruning.2.1 ["lamp", "desk lamp"],
   C10_stop_word_pruning.2.2 sC10 "the" 5 (by with_unfolding_all decide)⟩
